import Mathlib

/-!
Verification development for the fast-food dashboard (`Final Project/app.py`).

The program is a single-file Streamlit dashboard over a pandas DataFrame.  Its
core is a handful of pure load/filter/aggregate steps, which are embedded here
shallowly:

* a DataFrame row becomes a `Rec` structure and a DataFrame a `List Rec`,
  kept in row order;
* Python strings become lists of Unicode code points (`Text := List Nat`);
  `str.strip` / `str.lower` are modelled character-wise in the ASCII range
  (the dataset's state codes, city names and category tags are ASCII);
* the one fallible step, `pd.read_csv`, is external to the repository, so
  `load_and_clean_data` takes the outcome of the read as an `Except` value and
  the `try/except` boundary is modelled by pattern-matching on it; the
  `print` call becomes an explicit list of emitted log lines;
* pandas `drop_duplicates(keep='last')`, `groupby` (which sorts its keys),
  `sort_values(ascending=False)` (which pandas implements as the reverse of an
  ascending argsort, stable on small inputs) and `value_counts` are spelled out
  as executable list functions;
* `latitude`/`longitude` are optional floating-point display columns consumed
  only by the map rendering and are not modelled.
-/

namespace FastFood

/-- A Python string, as its sequence of Unicode code points. -/
abbrev Text := List Nat

/-- Code points of a Lean string literal, used to write concrete `Text` values. -/
def cl (s : String) : Text := s.data.map Char.toNat

/-- A cell of the `categories` column: either a text value or some non-text
value (e.g. a float `NaN` produced by `read_csv` for a missing cell), kept
opaque behind a numeric tag. -/
inductive Val where
  | str : Text → Val
  | other : Nat → Val
deriving DecidableEq, Repr

/-- One row of the loaded DataFrame: the columns `app.py` reads
(`id`, `name`, `address`, `city`, `province`, `postalCode`, `categories`). -/
structure Rec where
  id : Nat
  name : Text
  address : Text
  city : Text
  province : Text
  postalCode : Text
  categories : Val
deriving DecidableEq, Repr

/-- Python `str.isspace` for a single code point, ASCII range
(space, tab, LF, VT, FF, CR). -/
def isPySpace (c : Nat) : Bool :=
  c == 32 || c == 9 || c == 10 || c == 11 || c == 12 || c == 13

/-- Upper-case ASCII letter test. -/
def isUpperAscii (c : Nat) : Bool := 65 ≤ c && c ≤ 90

/-- Python `str.lower`, character-wise, ASCII range. -/
def lowerChar (c : Nat) : Nat := if 65 ≤ c && c ≤ 90 then c + 32 else c

/-- Python `s.strip()`: remove leading and trailing whitespace. -/
def pyStrip (s : Text) : Text :=
  (s.dropWhile isPySpace).rdropWhile isPySpace

/-- Python `s.lower()`. -/
def pyLower (s : Text) : Text := s.map lowerChar

/-- Test that a text does not begin with a whitespace character (vacuously
true for the empty text).  Applied to a reversed text it tests the absence
of trailing whitespace. -/
def headNotSpace : Text → Bool
  | [] => true
  | c :: _ => !isPySpace c

/-- The cleaning lambda of `load_and_clean_data`
(`lambda x: x.strip().lower() if isinstance(x, str) else x`). -/
def cleanCat : Val → Val
  | Val.str s => Val.str (pyLower (pyStrip s))
  | v => v

/-- Row-wise effect of cleaning the `categories` column
(`settings["columns_to_clean"] = ["categories"]`). -/
def cleanRec (r : Rec) : Rec := { r with categories := cleanCat r.categories }

/-- Pandas `df.drop_duplicates(subset=["id"], keep="last")`: a row is kept iff
no later row has the same `id`; kept rows stay in their original order. -/
def dedupLast : List Rec → List Rec
  | [] => []
  | r :: rs => if rs.any (fun s => s.id == r.id) then dedupLast rs else r :: dedupLast rs

/-- The successful path of `load_and_clean_data`: drop duplicate ids keeping
the last, then normalize the `categories` column. -/
def cleanRows (rows : List Rec) : List Rec :=
  (dedupLast rows).map cleanRec

/-- The failure modes the source's `except` clauses name: missing file, empty
file, missing column, and any other exception, the latter kept opaque. -/
inductive LoadErr where
  | fileNotFound : LoadErr
  | emptyData : LoadErr
  | keyError : LoadErr
  | otherExc : Nat → LoadErr
deriving DecidableEq, Repr

/-- Rendering of the exception object interpolated into the f-string
(`str(e)` in Python); opaque for unforeseen exceptions. -/
def showErr : LoadErr → Text
  | LoadErr.fileNotFound => cl "file not found"
  | LoadErr.emptyData => cl "no columns to parse from file"
  | LoadErr.keyError => cl "id"
  | LoadErr.otherExc n => cl "exception " ++ [n]

/-- `load_and_clean_data(filepath)`.  The external `pd.read_csv` is the only
step that can raise, so its outcome is the input; the first `except Exception`
clause catches every error, prints `f"An error occurred: {e}"` and returns
`None` (the later, more specific `except` clauses are unreachable).  Result:
the returned value (`None` on failure) paired with the printed log lines. -/
def load_and_clean_data (input : Except LoadErr (List Rec)) :
    Option (List Rec) × List Text :=
  match input with
  | Except.ok rows => (some (cleanRows rows), [])
  | Except.error e => (none, [cl "An error occurred: " ++ showErr e])

/-- `filter_data_by_province(province="All")` with the module-level global
`df` made an explicit argument: the literal `"LA"` returns the whole frame,
every other value selects rows whose `province` equals it exactly. -/
def filter_data_by_province (df : List Rec) (province : Text) : List Rec :=
  if province = cl "LA" then df
  else df.filter (fun r => r.province == province)

/-- `filter_data_by_city_province(df, city, province)`: the literal `"All"`
city selects by exact province only; otherwise city and province are both
compared after `str.lower` on each side. -/
def filter_data_by_city_province (df : List Rec) (city province : Text) : List Rec :=
  if city = cl "All" then df.filter (fun r => r.province == province)
  else df.filter (fun r =>
    pyLower r.city == pyLower city && pyLower r.province == pyLower province)

/-- `get_category_data(categories_selected, selected_province)` with the
global `df` explicit: an empty selection keeps the whole frame, a non-empty
one keeps rows whose `categories` value is in the selection; either way the
result is then restricted to rows whose `province` equals the selected
province literally. -/
def get_category_data (df : List Rec) (categories_selected : List Val)
    (selected_province : Text) : List Rec :=
  let category_filtered :=
    if categories_selected = [] then df
    else df.filter (fun r => categories_selected.contains r.categories)
  category_filtered.filter (fun r => r.province == selected_province)

/-- `get_pie_chart_data(categories_selected)` with the global `df` explicit:
an empty selection returns the frame unchanged, otherwise rows whose
`categories` value is in the selection (`Series.isin`). -/
def get_pie_chart_data (df : List Rec) (categories_selected : List Val) : List Rec :=
  if categories_selected = [] then df
  else df.filter (fun r => categories_selected.contains r.categories)

/-- Distinct values of a list in order of first appearance
(accumulator of already-seen values). -/
def uniqueKeysAux {α : Type} [DecidableEq α] : List α → List α → List α
  | [], _ => []
  | a :: l, seen =>
    if a ∈ seen then uniqueKeysAux l seen else a :: uniqueKeysAux l (a :: seen)

/-- Distinct values of a list, first occurrence first. -/
def uniqueKeys {α : Type} [DecidableEq α] (l : List α) : List α :=
  uniqueKeysAux l []

/-- Python `<` on strings: lexicographic comparison of code points. -/
def lexLe : Text → Text → Bool
  | [], _ => true
  | _ :: _, [] => false
  | a :: as, b :: bs => if a = b then lexLe as bs else decide (a < b)

/-- `Series.value_counts()` (used on the `province` column): one `(value,
count)` pair per distinct value, sorted by count descending (a stable
descending sort; the claims proved below do not depend on the tie order). -/
def value_counts {α : Type} [DecidableEq α] (xs : List α) : List (α × Nat) :=
  ((uniqueKeys xs).map (fun v => (v, xs.count v))).insertionSort
    (fun a b => b.2 ≤ a.2)

/-- `province_counts = ...['province'].value_counts()` as a function of the
frame it is computed from. -/
def province_counts (df : List Rec) : List (Text × Nat) :=
  value_counts (df.map (fun r => r.province))

/-- `get_top_10_restaurants(df)`: `groupby(['name']).size()` sorts the
distinct names ascending and counts each; `sort_values(by=['count'],
ascending=False)` is pandas `nargsort` — an ascending (stable, for inputs in
the insertion-sort regime of numpy's introsort) argsort whose order is then
reversed; `head(10)` truncates. -/
def get_top_10_restaurants (df : List Rec) : List (Text × Nat) :=
  let names := uniqueKeys (df.map (fun r => r.name))
  let grouped := (names.insertionSort (fun a b => lexLe a b = true)).map
    (fun n => (n, (df.map (fun r => r.name)).count n))
  let sorted := (grouped.insertionSort (fun a b => a.2 ≤ b.2)).reverse
  sorted.take 10

/-- Modelled from the spec (section 4.3): `topNByName(dataset, n)` counts per
distinct restaurant name in first-encountered order, stable-sorts by count
descending (so ties stay in first-encountered order) and truncates to `n`.
Stated only to be compared with `get_top_10_restaurants`. -/
def topNByName_spec (df : List Rec) (n : Nat) : List (Text × Nat) :=
  (((uniqueKeys (df.map (fun r => r.name))).map
      (fun m => (m, (df.map (fun r => r.name)).count m))).insertionSort
    (fun a b => b.2 ≤ a.2)).take n

instance : IsTotal (Text × Nat) (fun a b => a.2 ≤ b.2) :=
  ⟨fun a b => Nat.le_total a.2 b.2⟩

instance : IsTrans (Text × Nat) (fun a b => a.2 ≤ b.2) :=
  ⟨fun _ _ _ => Nat.le_trans⟩

/-- Sample row: province `"CA"`, name `"A"`. -/
def rA : Rec := ⟨1, cl "A", [], cl "Springfield", cl "CA", [], Val.str (cl "burgers")⟩

/-- Sample row: province `"CA"`, name `"B"`. -/
def rB : Rec := ⟨2, cl "B", [], cl "Springfield", cl "CA", [], Val.str (cl "pizza")⟩

/-- Sample row whose `province` field is the literal text `"All"`. -/
def rAll : Rec := ⟨3, cl "C", [], cl "Allton", cl "All", [], Val.str (cl "tacos")⟩

/-- Among the rows of a given `id`, `drop_duplicates(keep='last')` keeps
exactly the last one, in place. -/
lemma filter_dedupLast (v : Nat) (l : List Rec) :
    (dedupLast l).filter (fun r => r.id == v) =
      ((l.filter (fun r => r.id == v)).getLast?).toList := by
  induction l with
  | nil => rfl
  | cons r rs ih =>
    rw [dedupLast]
    by_cases h : rs.any (fun s => s.id == r.id) = true
    · rw [if_pos h]
      by_cases hp : r.id = v
      · have hne : rs.filter (fun r => r.id == v) ≠ [] := by
          obtain ⟨s, hs, hsid⟩ := List.any_eq_true.mp h
          intro hnil
          have := List.filter_eq_nil_iff.mp hnil s hs
          simp only [beq_iff_eq] at hsid this
          exact this (hsid.trans hp)
        rw [List.filter_cons_of_pos (by simp [hp]), ih]
        obtain ⟨x, xs, hx⟩ := List.exists_cons_of_ne_nil hne
        rw [hx, List.getLast?_cons_cons]
      · rw [List.filter_cons_of_neg (by simp [hp]), ih]
    · rw [if_neg h]
      by_cases hp : r.id = v
      · have hnil : rs.filter (fun r => r.id == v) = [] := by
          apply List.filter_eq_nil_iff.mpr
          intro s hs
          simp only [beq_iff_eq]
          intro hsv
          exact h (List.any_eq_true.mpr ⟨s, hs, by simp [hsv, hp]⟩)
        have hnil2 : (dedupLast rs).filter (fun r => r.id == v) = [] := by
          rw [ih, hnil]; rfl
        rw [List.filter_cons_of_pos (by simp [hp]),
            List.filter_cons_of_pos (by simp [hp]), hnil, hnil2]
        rfl
      · rw [List.filter_cons_of_neg (by simp [hp]),
            List.filter_cons_of_neg (by simp [hp]), ih]

/-- `drop_duplicates(keep='last')` keeps a subsequence of the rows. -/
lemma dedupLast_sublist (l : List Rec) : List.Sublist (dedupLast l) l := by
  induction l with
  | nil => exact List.Sublist.refl _
  | cons r rs ih =>
    rw [dedupLast]
    by_cases h : rs.any (fun s => s.id == r.id) = true
    · rw [if_pos h]
      exact ih.cons r
    · rw [if_neg h]
      exact ih.cons₂ r

/-- Lower-casing a code point does not change whether it is whitespace. -/
lemma isPySpace_lowerChar (c : Nat) : isPySpace (lowerChar c) = isPySpace c := by
  unfold lowerChar isPySpace
  split
  · next h =>
    simp only [Bool.and_eq_true, decide_eq_true_eq] at h
    have h1 : (c + 32 == 32 || c + 32 == 9 || c + 32 == 10 || c + 32 == 11 ||
        c + 32 == 12 || c + 32 == 13) = false := by
      simp only [Bool.or_eq_false_iff, beq_eq_false_iff_ne, ne_eq]
      omega
    have h2 : (c == 32 || c == 9 || c == 10 || c == 11 ||
        c == 12 || c == 13) = false := by
      simp only [Bool.or_eq_false_iff, beq_eq_false_iff_ne, ne_eq]
      omega
    rw [h1, h2]
  · rfl

/-- Lower-casing never produces an upper-case ASCII letter. -/
lemma isUpperAscii_lowerChar (c : Nat) : isUpperAscii (lowerChar c) = false := by
  unfold lowerChar isUpperAscii
  split
  · next h =>
    simp only [Bool.and_eq_true, decide_eq_true_eq] at h
    simp only [Bool.and_eq_false_iff, decide_eq_false_iff_not]
    omega
  · next h =>
    simp only [Bool.and_eq_true, decide_eq_true_eq, not_and] at h
    simp only [Bool.and_eq_false_iff, decide_eq_false_iff_not]
    omega

/-- Lower-casing preserves the leading-whitespace test. -/
lemma headNotSpace_map_lower (t : Text) :
    headNotSpace (t.map lowerChar) = headNotSpace t := by
  cases t with
  | nil => rfl
  | cons c cs => simp [headNotSpace, isPySpace_lowerChar]

/-- After `dropWhile isPySpace` the first character is not whitespace. -/
lemma headNotSpace_dropWhile (l : Text) :
    headNotSpace (l.dropWhile isPySpace) = true := by
  have h := List.head?_dropWhile_not isPySpace l
  cases hd : l.dropWhile isPySpace with
  | nil => rfl
  | cons c cs =>
    rw [hd] at h
    simp only [List.head?_cons] at h
    simp [headNotSpace, h]

/-- A stripped text does not begin with whitespace. -/
lemma headNotSpace_pyStrip (s : Text) : headNotSpace (pyStrip s) = true := by
  cases hB : pyStrip s with
  | nil => rfl
  | cons c cs =>
    have hpre : List.IsPrefix (pyStrip s) (s.dropWhile isPySpace) :=
      List.rdropWhile_prefix _ _
    rw [hB] at hpre
    obtain ⟨t, ht⟩ := hpre
    have hds := headNotSpace_dropWhile s
    rw [← ht] at hds
    simpa [headNotSpace] using hds

/-- A stripped text does not end with whitespace. -/
lemma headNotSpace_pyStrip_reverse (s : Text) :
    headNotSpace (pyStrip s).reverse = true := by
  unfold pyStrip List.rdropWhile
  rw [List.reverse_reverse]
  exact headNotSpace_dropWhile _

lemma mem_uniqueKeysAux {α : Type} [DecidableEq α] (x : α) :
    ∀ (l seen : List α), x ∈ uniqueKeysAux l seen ↔ x ∈ l ∧ x ∉ seen := by
  intro l
  induction l with
  | nil => intro seen; simp [uniqueKeysAux]
  | cons a l ih =>
    intro seen
    rw [uniqueKeysAux]
    by_cases h : a ∈ seen
    · rw [if_pos h, ih]
      simp only [List.mem_cons]
      constructor
      · rintro ⟨hx, hs⟩
        exact ⟨Or.inr hx, hs⟩
      · rintro ⟨hx | hx, hs⟩
        · exact absurd (hx ▸ h) hs
        · exact ⟨hx, hs⟩
    · rw [if_neg h]
      simp only [List.mem_cons, ih, List.mem_cons]
      by_cases hxa : x = a
      · subst hxa
        simp [h]
      · simp [hxa]

lemma nodup_uniqueKeysAux {α : Type} [DecidableEq α] :
    ∀ (l seen : List α), (uniqueKeysAux l seen).Nodup := by
  intro l
  induction l with
  | nil => intro seen; simp [uniqueKeysAux]
  | cons a l ih =>
    intro seen
    rw [uniqueKeysAux]
    by_cases h : a ∈ seen
    · rw [if_pos h]; exact ih seen
    · rw [if_neg h]
      rw [List.nodup_cons]
      refine ⟨?_, ih (a :: seen)⟩
      intro hmem
      exact ((mem_uniqueKeysAux a l (a :: seen)).mp hmem).2 (List.mem_cons_self a seen)

lemma uniqueKeys_perm_dedup {α : Type} [DecidableEq α] (l : List α) :
    List.Perm (uniqueKeys l) l.dedup := by
  unfold uniqueKeys
  rw [List.perm_ext_iff_of_nodup (nodup_uniqueKeysAux l []) (List.nodup_dedup l)]
  intro a
  rw [List.mem_dedup, mem_uniqueKeysAux]
  simp

lemma sum_map_add_nat {α : Type} (f g : α → Nat) (l : List α) :
    (l.map fun x => f x + g x).sum = (l.map f).sum + (l.map g).sum := by
  induction l with
  | nil => rfl
  | cons a l ih =>
    simp only [List.map_cons, List.sum_cons, ih]
    omega

lemma sum_map_beq_count {α : Type} [DecidableEq α] (a : α) (l : List α) :
    (l.map fun v => if a == v then 1 else 0).sum = l.count a := by
  induction l with
  | nil => rfl
  | cons b l ih =>
    rw [List.map_cons, List.sum_cons, List.count_cons, ih]
    by_cases hab : a = b
    · subst hab
      simp [Nat.add_comm]
    · have h1 : (a == b) = false := beq_eq_false_iff_ne.mpr hab
      have h2 : (b == a) = false := beq_eq_false_iff_ne.mpr (Ne.symm hab)
      simp [h1, h2]

lemma sum_counts_dedup {α : Type} [DecidableEq α] (l : List α) :
    (l.dedup.map fun v => l.count v).sum = l.length := by
  induction l with
  | nil => rfl
  | cons a l ih =>
    have hpt : (List.dedup (a :: l)).map (fun v => (a :: l).count v) =
        (List.dedup (a :: l)).map fun v => l.count v + if a == v then 1 else 0 := by
      simp only [List.count_cons]
    by_cases h : a ∈ l
    · rw [List.dedup_cons_of_mem h] at hpt ⊢
      rw [hpt, sum_map_add_nat, ih, sum_map_beq_count, List.count_dedup]
      simp [h]
    · rw [List.dedup_cons_of_not_mem h] at hpt ⊢
      rw [hpt, sum_map_add_nat]
      have hl : ((a :: l.dedup).map fun v => l.count v).sum = l.length := by
        simp only [List.map_cons, List.sum_cons, ih,
          List.count_eq_zero_of_not_mem h]
        omega
      have hr : ((a :: l.dedup).map fun v => if a == v then 1 else 0).sum = 1 := by
        simp only [List.map_cons, List.sum_cons, sum_map_beq_count,
          List.count_dedup]
        simp [h]
      rw [hl, hr]
      simp

lemma value_counts_sum {α : Type} [DecidableEq α] (xs : List α) :
    ((value_counts xs).map Prod.snd).sum = xs.length := by
  unfold value_counts
  have hperm := List.perm_insertionSort (fun a b : α × Nat => b.2 ≤ a.2)
    ((uniqueKeys xs).map (fun v => (v, xs.count v)))
  rw [(hperm.map Prod.snd).sum_eq, List.map_map]
  have h2 := ((uniqueKeys_perm_dedup xs).map (fun v => xs.count v)).sum_eq
  have h3 : (Prod.snd ∘ fun v : α => (v, xs.count v)) = fun v => xs.count v := rfl
  rw [h3, h2, sum_counts_dedup]

/-!  Claim theorems. -/

/-- C6.  The cleaning lambda sends a text cell of the `categories` column to
its stripped, lower-cased form, which carries no leading or trailing
whitespace and no upper-case ASCII letter; a non-text cell passes through
unchanged. -/
theorem clean_category_normalized (s : Text) (k : Nat) :
    cleanCat (Val.str s) = Val.str (pyLower (pyStrip s)) ∧
    headNotSpace (pyLower (pyStrip s)) = true ∧
    headNotSpace (pyLower (pyStrip s)).reverse = true ∧
    (pyLower (pyStrip s)).all (fun c => !isUpperAscii c) = true ∧
    cleanCat (Val.other k) = Val.other k := by
  refine ⟨rfl, ?_, ?_, ?_, rfl⟩
  · show headNotSpace ((pyStrip s).map lowerChar) = true
    rw [headNotSpace_map_lower]
    exact headNotSpace_pyStrip s
  · show headNotSpace ((pyStrip s).map lowerChar).reverse = true
    rw [← List.map_reverse, headNotSpace_map_lower]
    exact headNotSpace_pyStrip_reverse s
  · simp [pyLower, List.all_map, Function.comp, isUpperAscii_lowerChar]

/-- C1.  The spec's province filter contract fails on the code: the sidebar
sentinel `"All"` is not special-cased by `filter_data_by_province`, so it is
matched literally against the `province` column (yielding nothing on a row
whose province is `"CA"`), while the state code `"LA"` — a non-sentinel
value — returns the whole frame instead of only the `"LA"` rows. -/
theorem filter_data_by_province_sentinel_broken :
    filter_data_by_province [rA] (cl "All") = [] ∧
    filter_data_by_province [rA] (cl "LA") = [rA] ∧
    rA.province = cl "CA" ∧ ([rA] : List Rec) ≠ [] := by decide

/-- C4.  `filter_data_by_city_province` keeps, for the sentinel city `"All"`,
exactly the rows whose province equals the given value, and otherwise exactly
the rows whose city and province both match after lower-casing both sides. -/
theorem filter_data_by_city_province_spec (df : List Rec) (city province : Text)
    (r : Rec) :
    r ∈ filter_data_by_city_province df city province ↔
      r ∈ df ∧ (if city = cl "All" then r.province = province
        else pyLower r.city = pyLower city ∧ pyLower r.province = pyLower province) := by
  unfold filter_data_by_city_province
  by_cases h : city = cl "All" <;>
    simp [h, List.mem_filter]

/-- C5.  `get_pie_chart_data` returns the frame unchanged on an empty category
selection, and otherwise exactly the rows whose (cleaned, atomic) `categories`
value belongs to the selection. -/
theorem get_pie_chart_data_spec (df : List Rec) (sel : List Val) (r : Rec) :
    get_pie_chart_data df [] = df ∧
    (r ∈ get_pie_chart_data df sel ↔
      (if sel = [] then r ∈ df else r ∈ df ∧ r.categories ∈ sel)) := by
  refine ⟨rfl, ?_⟩
  unfold get_pie_chart_data
  by_cases h : sel = [] <;> simp [h, List.mem_filter]

/-- C8.  Every failing load (missing file, empty file, missing column, any
other exception) is caught at the `try/except` boundary: the function
returns `None` — an absent dataset — rather than re-raising, and prints one
non-empty error line. -/
theorem load_and_clean_data_fails_soft (e : LoadErr) :
    (load_and_clean_data (Except.error e)).1 = none ∧
    (load_and_clean_data (Except.error e)).2 ≠ [] ∧
    ∀ m ∈ (load_and_clean_data (Except.error e)).2, m ≠ [] := by
  refine ⟨rfl, by simp [load_and_clean_data], ?_⟩
  intro m hm
  simp only [load_and_clean_data, List.mem_singleton] at hm
  subst hm
  simp [cl]

/-- C9.  With an empty category selection the bar-chart filter does not
return the frame unchanged: it still restricts to rows whose `province`
equals the selected value literally, so the literal selection `"All"` keeps
exactly the rows whose province field is the text `"All"`. -/
theorem get_category_data_empty_selection :
    (∀ (df : List Rec) (p : Text) (r : Rec),
        r ∈ get_category_data df [] p ↔ r ∈ df ∧ r.province = p) ∧
    get_category_data [rAll, rA] [] (cl "All") = [rAll] ∧
    rAll.province = cl "All" ∧ rA ∈ [rAll, rA] ∧ rA.province ≠ cl "All" := by
  refine ⟨?_, by decide, by decide, by decide, by decide⟩
  intro df p r
  unfold get_category_data
  simp [List.mem_filter]

/-- C2.  For an identifier `v` occurring in several rows, the cleaned frame
holds exactly one row with that id; at the deduplication step it is exactly
the last-occurring such row of the file, and in the final frame it is that
row with only its `categories` cell normalized. -/
theorem load_keeps_last_duplicate (rows : List Rec) (v : Nat)
    (h : 2 ≤ (rows.filter (fun r => r.id == v)).length) :
    ((cleanRows rows).filter (fun r => r.id == v)).length = 1 ∧
    ((dedupLast rows).filter (fun r => r.id == v)).head? =
      (rows.filter (fun r => r.id == v)).getLast? ∧
    ((cleanRows rows).filter (fun r => r.id == v)).head? =
      ((rows.filter (fun r => r.id == v)).getLast?).map cleanRec := by
  have hcomm : (cleanRows rows).filter (fun r => r.id == v) =
      ((dedupLast rows).filter (fun r => r.id == v)).map cleanRec := by
    unfold cleanRows
    rw [List.filter_map]
    rfl
  cases hL : (rows.filter (fun r => r.id == v)).getLast? with
  | none =>
    exfalso
    rw [List.getLast?_eq_none_iff] at hL
    rw [hL] at h
    simp at h
  | some x =>
    have hF := filter_dedupLast v rows
    rw [hL] at hF
    refine ⟨?_, ?_, ?_⟩
    · rw [hcomm, hF]; rfl
    · rw [hF]; rfl
    · rw [hcomm, hF]; rfl

/-- C2 witness: the spec's own example — rows with ids 1, 2, 1, the second
id-1 row named `"A2"` — keeps exactly one id-1 row. -/
theorem load_keeps_last_duplicate_witness :
    2 ≤ (([rA, rB, { rA with name := cl "A2" }] : List Rec).filter
        (fun r => r.id == 1)).length ∧
    ((cleanRows [rA, rB, { rA with name := cl "A2" }]).filter
        (fun r => r.id == 1)).length = 1 := by
  refine ⟨by decide, ?_⟩
  exact (load_keeps_last_duplicate [rA, rB, { rA with name := cl "A2" }] 1 (by decide)).1

/-- C10.  Cleaning never reorders rows: deduplication keeps a subsequence of
the input rows, and the category normalization maps that subsequence in
place, so the cleaned frame is an order-preserving subsequence of the
row-wise-normalized input. -/
theorem cleanRows_preserves_order (rows : List Rec) :
    List.Sublist (dedupLast rows) rows ∧
    List.Sublist (cleanRows rows) (rows.map cleanRec) := by
  refine ⟨dedupLast_sublist rows, ?_⟩
  unfold cleanRows
  exact (dedupLast_sublist rows).map cleanRec

/-- C7.  `value_counts` on the `province` column partitions the frame: the
per-province counts sum to the number of rows, and the empty frame yields an
empty result (the aggregation is total). -/
theorem province_counts_partition (df : List Rec) :
    ((province_counts df).map Prod.snd).sum = df.length ∧
    province_counts ([] : List Rec) = [] := by
  refine ⟨?_, rfl⟩
  unfold province_counts
  rw [value_counts_sum, List.length_map]

/-- C3 (amended).  `get_top_10_restaurants` returns at most 10 entries (the
source fixes n at 10), sorted by count descending, and re-running it on the
same frame yields the same sequence.  The original tie-break clause is
dropped: see the counterexample below. -/
theorem get_top_10_restaurants_spec (df : List Rec) :
    (get_top_10_restaurants df).length ≤ 10 ∧
    List.Sorted (fun a b : Text × Nat => b.2 ≤ a.2) (get_top_10_restaurants df) ∧
    get_top_10_restaurants df = get_top_10_restaurants df := by
  refine ⟨?_, ?_, rfl⟩
  · unfold get_top_10_restaurants
    exact List.length_take_le 10 _
  · unfold get_top_10_restaurants
    apply List.Pairwise.sublist (List.take_sublist 10 _)
    exact List.pairwise_reverse.mpr
      (List.sorted_insertionSort (fun a b : Text × Nat => a.2 ≤ b.2) _)

/-- C3 counterexample.  Ties are not broken by first-encountered order: on
rows named `"A"` then `"B"` (one each), the code returns `[("B",1),("A",1)]`
— `groupby` sorts the names ascending and the descending `sort_values`
reverses that order — while the claimed stable first-encountered tie-break
(`topNByName_spec`) gives `[("A",1),("B",1)]`. -/
theorem get_top_10_ties_not_first_encountered :
    get_top_10_restaurants [rA, rB] ≠ topNByName_spec [rA, rB] 10 ∧
    get_top_10_restaurants [rA, rB] = [(cl "B", 1), (cl "A", 1)] ∧
    topNByName_spec [rA, rB] 10 = [(cl "A", 1), (cl "B", 1)] := by decide

end FastFood
